import Mathlib

/-!
Verification development for the OpenAI-to-NVIDIA-NIM proxy (src/server.js).

The development shallowly embeds the parts of the server that the
specification's testable properties concern:

* the streaming response transcoder (src/server.js:150-210): residual-buffer
  reassembly (`onData`), per-line frame processing (`processLine`), and the
  end-of-stream close path (`onEnd`);
* the JSON values the transcoder parses and re-serialises (`Json`,
  `Json.parseL`, `Json.stringify`), modelling `JSON.parse` / `JSON.stringify`
  together with the JavaScript truthiness and property-access rules the
  handler relies on;
* the non-streaming response translation (src/server.js:216-229);
* the model resolver's memo/fallback tiers (src/server.js:81-105);
* the upstream request construction (src/server.js:108-115);
* the inbound validation and error dispatch (src/server.js:74-78, 274-293).

Transport chunks are modelled as the character sequences the handler works
with after `chunk.toString()`; JavaScript strings are modelled as `List Char`
or `String` (which is the same data).
-/

namespace NimProxy

/-! ## Character-list utilities (JavaScript string primitives) -/

/-- JS `s.startsWith(pat)`: `startsWithL pat s` is true iff `pat` begins `s`. -/
def startsWithL : List Char → List Char → Bool
  | [], _ => true
  | _ :: _, [] => false
  | p :: ps, c :: cs => p = c && startsWithL ps cs

/-- JS `s.includes(pat)`: some suffix of `s` begins with `pat`. -/
def hasSubL (pat : List Char) : List Char → Bool
  | [] => startsWithL pat []
  | c :: cs => startsWithL pat (c :: cs) || hasSubL pat cs

/-- JS `s.split('\n')` (src/server.js:163): the segments of `s` separated by
the newline character.  The result is always non-empty; the final element is
the (possibly empty) text after the last newline. -/
def splitNl : List Char → List (List Char)
  | [] => [[]]
  | c :: cs =>
    if c = '\n' then [] :: splitNl cs
    else (c :: (splitNl cs).headD []) :: (splitNl cs).tail

theorem splitNl_nil : splitNl [] = [[]] := rfl

theorem splitNl_cons_nl (cs : List Char) : splitNl ('\n' :: cs) = [] :: splitNl cs := by
  simp [splitNl]

theorem splitNl_cons_ne (c : Char) (cs : List Char) (h : ¬ c = '\n') :
    splitNl (c :: cs) = (c :: (splitNl cs).headD []) :: (splitNl cs).tail := by
  simp [splitNl, h]

theorem splitNl_ne_nil (s : List Char) : splitNl s ≠ [] := by
  cases s with
  | nil => simp [splitNl]
  | cons c cs =>
    simp only [splitNl]
    split <;> simp

theorem getLastD_irrel (a : α) (l : List α) (d e : α) :
    (a :: l).getLastD d = (a :: l).getLastD e := by
  cases l <;> rfl

theorem getLastD_cons_ne (a : α) (l : List α) (d : α) (h : l ≠ []) :
    (a :: l).getLastD d = l.getLastD d := by
  cases l with
  | nil => exact absurd rfl h
  | cons b t => exact getLastD_irrel b t a d

theorem getLastD_append_ne (xs ys : List α) (d : α) (h : ys ≠ []) :
    (xs ++ ys).getLastD d = ys.getLastD d := by
  induction xs with
  | nil => rfl
  | cons x xs ih =>
    have hne : xs ++ ys ≠ [] := by
      intro hc
      rcases List.append_eq_nil.mp hc with ⟨h1, h2⟩
      exact h h2
    rw [List.cons_append, getLastD_cons_ne x (xs ++ ys) d hne, ih]

theorem dropLast_cons_ne (a : α) (l : List α) (h : l ≠ []) :
    (a :: l).dropLast = a :: l.dropLast := by
  cases l with
  | nil => exact absurd rfl h
  | cons b t => rfl

theorem dropLast_append_ne (xs ys : List α) (h : ys ≠ []) :
    (xs ++ ys).dropLast = xs ++ ys.dropLast := by
  induction xs with
  | nil => rfl
  | cons x xs ih =>
    have hne : xs ++ ys ≠ [] := by
      intro hc
      rcases List.append_eq_nil.mp hc with ⟨h1, h2⟩
      exact h h2
    rw [List.cons_append, dropLast_cons_ne x (xs ++ ys) hne, ih, List.cons_append]

/-- Key decomposition fact about `splitNl`: splitting `s ++ b` yields all the
complete segments of `s`, followed by the split of the residual segment of `s`
glued onto `b`.  This is exactly the algebra behind the transcoder's
append-then-split reassembly loop. -/
theorem splitNl_append (s b : List Char) :
    splitNl (s ++ b) =
      (splitNl s).dropLast ++ splitNl ((splitNl s).getLastD [] ++ b) := by
  induction s with
  | nil => simp [splitNl]
  | cons c cs ih =>
    by_cases hc : c = '\n'
    · subst hc
      rw [List.cons_append, splitNl_cons_nl, splitNl_cons_nl, ih,
        dropLast_cons_ne _ _ (splitNl_ne_nil cs),
        getLastD_cons_ne _ _ _ (splitNl_ne_nil cs), List.cons_append]
    · rw [List.cons_append, splitNl_cons_ne c (cs ++ b) hc, splitNl_cons_ne c cs hc, ih]
      cases heq : splitNl cs with
      | nil => exact absurd heq (splitNl_ne_nil cs)
      | cons x t =>
        cases t with
        | nil => simp [splitNl_cons_ne c (x ++ b) hc]
        | cons y t2 =>
          simp only [List.headD_cons, List.tail_cons]
          rw [dropLast_cons_ne x (y :: t2) (by simp),
            dropLast_cons_ne (c :: x) (y :: t2) (by simp),
            getLastD_cons_ne (c :: x) (y :: t2) [] (by simp),
            getLastD_cons_ne x (y :: t2) [] (by simp)]
          simp

/-! ## JSON values

`Json` models the JavaScript values produced by `JSON.parse`.  Numbers keep
their source lexeme (`num raw`), which is faithful for every integral literal
appearing in this protocol. -/

inductive Json where
  | null
  | bool (b : Bool)
  | num (raw : String)
  | str (s : String)
  | arr (items : List Json)
  | obj (fields : List (String × Json))
deriving Inhabited

/-- First-match association-list lookup (JS property read on an object). -/
def jlookup : List (String × Json) → String → Option Json
  | [], _ => none
  | (k2, v) :: rest, k => if k2 = k then some v else jlookup rest k

/-- JS property assignment on an object: replace in place, else append. -/
def setKey : List (String × Json) → String → Json → List (String × Json)
  | [], k, v => [(k, v)]
  | (k2, v2) :: rest, k, v =>
    if k2 = k then (k2, v) :: rest else (k2, v2) :: setKey rest k v

/-- JS `delete obj[k]`. -/
def delKey (kvs : List (String × Json)) (k : String) : List (String × Json) :=
  kvs.filter (fun p => !(p.1 = k))

/-- JS property read `j[k]` (returns `undefined`, i.e. `none`, off objects). -/
def Json.getField : Json → String → Option Json
  | .obj fields, k => jlookup fields k
  | _, _ => none

/-- Sloppy-mode JS property assignment: a no-op on primitives. -/
def Json.setField : Json → String → Json → Json
  | .obj fields, k, v => .obj (setKey fields k v)
  | j, _, _ => j

/-- Sloppy-mode JS `delete j.k`: a no-op on primitives. -/
def Json.delField : Json → String → Json
  | .obj fields, k => .obj (delKey fields k)
  | j, _ => j

/-- Whether the numeric lexeme denotes zero (JS falsy number): every digit of
its mantissa (sign, integer and fraction part) is `0`. -/
def numMantissaZero (raw : String) : Bool :=
  (raw.data.takeWhile (fun c => !(c = 'e' || c = 'E'))).all
    (fun c => !(Char.isDigit c) || c = '0')

/-- JavaScript truthiness of a parsed JSON value. -/
def Json.truthy : Json → Bool
  | .null => false
  | .bool b => b
  | .num raw => !(numMantissaZero raw)
  | .str s => !(s = "")
  | .arr _ => true
  | .obj _ => true

/-- Truthiness of a possibly-`undefined` value. -/
def truthyO : Option Json → Bool
  | none => false
  | some j => j.truthy

/-- JS `v?.[0]`: index 0 of an array, property `"0"` of an object, the first
character of a non-empty string, `undefined` otherwise. -/
def Json.idx0 : Json → Option Json
  | .arr items => items.head?
  | .obj fields => jlookup fields "0"
  | .str s =>
    match s.data with
    | [] => none
    | c :: _ => some (.str (String.mk [c]))
  | _ => none

/-! ## JSON.parse -/

def isWsChar (c : Char) : Bool := c = ' ' || c = '\t' || c = '\n' || c = '\r'

def skipWs (s : List Char) : List Char := s.dropWhile isWsChar

def hexVal (c : Char) : Option Nat :=
  if '0' ≤ c ∧ c ≤ '9' then some (c.toNat - 48)
  else if 'a' ≤ c ∧ c ≤ 'f' then some (c.toNat - 87)
  else if 'A' ≤ c ∧ c ≤ 'F' then some (c.toNat - 55)
  else none

def escMap : Char → Option Char
  | '"' => some '"'
  | '\\' => some '\\'
  | '/' => some '/'
  | 'b' => some (Char.ofNat 8)
  | 'f' => some (Char.ofNat 12)
  | 'n' => some '\n'
  | 'r' => some '\r'
  | 't' => some '\t'
  | _ => none

/-- Scan a JSON string body (after the opening quote): returns the decoded
characters and the remainder after the closing quote. -/
def scanString : List Char → Option (List Char × List Char)
  | [] => none
  | '"' :: rest => some ([], rest)
  | '\\' :: 'u' :: h1 :: h2 :: h3 :: h4 :: rest =>
    (match hexVal h1, hexVal h2, hexVal h3, hexVal h4 with
     | some a, some b, some c, some d =>
       (scanString rest).map fun p => (Char.ofNat (((a * 16 + b) * 16 + c) * 16 + d) :: p.1, p.2)
     | _, _, _, _ => none)
  | '\\' :: e :: rest =>
    (match escMap e with
     | some ec => (scanString rest).map fun p => (ec :: p.1, p.2)
     | none => none)
  | ['\\'] => none
  | c :: rest => (scanString rest).map fun p => (c :: p.1, p.2)

def scanFrac : List Char → Option (List Char × List Char)
  | '.' :: r =>
    (match r.takeWhile Char.isDigit with
     | [] => none
     | ds => some ('.' :: ds, r.dropWhile Char.isDigit))
  | s => some ([], s)

def scanExp : List Char → Option (List Char × List Char)
  | [] => some ([], [])
  | c :: r =>
    if c = 'e' || c = 'E' then
      let sr := match r with
        | '+' :: t => ((['+'] : List Char), t)
        | '-' :: t => ((['-'] : List Char), t)
        | _ => ([], r)
      match sr.2.takeWhile Char.isDigit with
      | [] => none
      | ds => some (c :: (sr.1 ++ ds), sr.2.dropWhile Char.isDigit)
    else some ([], c :: r)

/-- Scan a JSON numeric lexeme; returns the lexeme and the remainder. -/
def scanNum (s : List Char) : Option (List Char × List Char) :=
  let sg := match s with
    | '-' :: r => ((['-'] : List Char), r)
    | _ => ([], s)
  match sg.2.takeWhile Char.isDigit with
  | [] => none
  | ds => do
    let (f, s3) ← scanFrac (sg.2.dropWhile Char.isDigit)
    let (e, s4) ← scanExp s3
    some (sg.1 ++ ds ++ f ++ e, s4)

/-- JS object construction from parsed member list: later duplicate keys win,
the first occurrence fixes the position. -/
def buildObj (fields : List (String × Json)) : List (String × Json) :=
  fields.foldl (fun acc p => setKey acc p.1 p.2) []

mutual

/-- Fuel-indexed recursive-descent JSON value parse. -/
def pVal : Nat → List Char → Option (Json × List Char)
  | 0, _ => none
  | Nat.succ f, s =>
    match skipWs s with
    | 'n' :: 'u' :: 'l' :: 'l' :: r => some (Json.null, r)
    | 't' :: 'r' :: 'u' :: 'e' :: r => some (Json.bool true, r)
    | 'f' :: 'a' :: 'l' :: 's' :: 'e' :: r => some (Json.bool false, r)
    | '"' :: r => (scanString r).map fun p => (Json.str (String.mk p.1), p.2)
    | '[' :: r =>
      (match skipWs r with
       | ']' :: r2 => some (Json.arr [], r2)
       | r2 => (pItems f r2).map fun p => (Json.arr p.1, p.2))
    | '{' :: r =>
      (match skipWs r with
       | '}' :: r2 => some (Json.obj [], r2)
       | r2 => (pFields f r2).map fun p => (Json.obj (buildObj p.1), p.2))
    | r => (scanNum r).map fun p => (Json.num (String.mk p.1), p.2)

/-- Array elements after `[` (at least one element). -/
def pItems : Nat → List Char → Option (List Json × List Char)
  | 0, _ => none
  | Nat.succ f, s => do
    let (v, r) ← pVal f s
    match skipWs r with
    | ']' :: r2 => some ([v], r2)
    | ',' :: r2 => do
      let (vs, r3) ← pItems f r2
      some (v :: vs, r3)
    | _ => none

/-- Object members after the opening brace (at least one member). -/
def pFields : Nat → List Char → Option (List (String × Json) × List Char)
  | 0, _ => none
  | Nat.succ f, s =>
    match skipWs s with
    | '"' :: r => do
      let (k, r2) ← scanString r
      match skipWs r2 with
      | ':' :: r3 => do
        let (v, r4) ← pVal f r3
        (match skipWs r4 with
         | '}' :: r5 => some ([(String.mk k, v)], r5)
         | ',' :: r5 => do
           let (fs, r6) ← pFields f r5
           some ((String.mk k, v) :: fs, r6)
         | _ => none)
      | _ => none
    | _ => none

end

/-- `JSON.parse` model on character lists: a full parse with only trailing
whitespace allowed (the fuel bound is generous for any input). -/
def Json.parseL (s : List Char) : Option Json :=
  match pVal (2 * s.length + 2) s with
  | some (v, rest) => if skipWs rest = [] then some v else none
  | none => none

/-- `JSON.parse` model on strings. -/
def Json.parseS (s : String) : Option Json := Json.parseL s.data

/-! ## JSON.stringify -/

def hexDigit (n : Nat) : Char :=
  if n < 10 then Char.ofNat (48 + n) else Char.ofNat (87 + n)

/-- `JSON.stringify` escaping of one string character. -/
def escapeChar (c : Char) : List Char :=
  if c = '"' then ['\\', '"']
  else if c = '\\' then ['\\', '\\']
  else if c = '\n' then ['\\', 'n']
  else if c = '\r' then ['\\', 'r']
  else if c = '\t' then ['\\', 't']
  else if c = Char.ofNat 8 then ['\\', 'b']
  else if c = Char.ofNat 12 then ['\\', 'f']
  else if c.toNat < 32 then
    '\\' :: 'u' :: '0' :: '0' :: [hexDigit (c.toNat / 16), hexDigit (c.toNat % 16)]
  else [c]

def quoteStr (s : String) : String :=
  String.mk ('"' :: s.data.foldr (fun c acc => escapeChar c ++ acc) ['"'])

mutual

/-- `JSON.stringify` model (no indentation, as in the source). -/
def Json.stringify : Json → String
  | .null => "null"
  | .bool true => "true"
  | .bool false => "false"
  | .num raw => raw
  | .str s => quoteStr s
  | .arr items => "[" ++ stringifyItems items ++ "]"
  | .obj fields => "\x7b" ++ stringifyFields fields ++ "\x7d"

def stringifyItems : List Json → String
  | [] => ""
  | [v] => Json.stringify v
  | v :: rest => Json.stringify v ++ "," ++ stringifyItems rest

def stringifyFields : List (String × Json) → String
  | [] => ""
  | [(k, v)] => quoteStr k ++ ":" ++ Json.stringify v
  | (k, v) :: rest => quoteStr k ++ ":" ++ Json.stringify v ++ "," ++ stringifyFields rest

end

/-! ## JS string coercion (used by `+` on strings) -/

mutual

/-- JS string coercion of a JSON value, as performed by string concatenation.
Every fragment occurring in this protocol is already a string. -/
def Json.coerceStr : Json → String
  | .null => "null"
  | .bool true => "true"
  | .bool false => "false"
  | .num raw => raw
  | .str s => s
  | .arr items => coerceItems items
  | .obj _ => "[object Object]"

/-- `Array.prototype.toString`: elements joined by commas, nulls as empty. -/
def coerceItems : List Json → String
  | [] => ""
  | [Json.null] => ""
  | [v] => Json.coerceStr v
  | Json.null :: rest => "," ++ coerceItems rest
  | v :: rest => Json.coerceStr v ++ "," ++ coerceItems rest

end

/-- Coercion of a possibly-`undefined` value (never applied to `none` by the
transcoder, which tests truthiness first). -/
def coerceO : Option Json → String
  | none => "undefined"
  | some j => j.coerceStr

/-! ## Stream transcoder (src/server.js:145-210)

The handler state is the residual byte buffer (src/server.js:150) and the
`reasoningStarted` flag (src/server.js:151).  `onData` models one
`response.data.on('data')` callback; `processLine` models the body of
`lines.forEach`; `onEnd` models the `response.data.on('end')` close path.
Emitted output is collected as the list of `res.write` arguments. -/

/-- Process-wide toggle (src/server.js:22). -/
def SHOW_REASONING : Bool := true

/-- Process-wide toggle (src/server.js:23). -/
def ENABLE_THINKING_MODE : Bool := true

def dataMarker : List Char := "data: ".data

def doneMarker : List Char := "[DONE]".data

/-- `data.choices?.[0]?.delta` (src/server.js:178). -/
def getDelta (data : Json) : Option Json :=
  match data.getField "choices" with
  | none => none
  | some ch =>
    match ch.idx0 with
    | none => none
    | some c0 => c0.getField "delta"

/-- Lines 182-186: build the merged content string and the updated
reasoning-open flag from the two delta fragments of choice 0. -/
def combineContent (reasoningStarted : Bool) (reasoning content : Option Json) :
    String × Bool :=
  let s1 : String × Bool :=
    if truthyO reasoning && !reasoningStarted then ("<think>\n" ++ coerceO reasoning, true)
    else if truthyO reasoning then (coerceO reasoning, reasoningStarted)
    else ("", reasoningStarted)
  if truthyO content && s1.2 then (s1.1 ++ "</think>\n\n" ++ coerceO content, false)
  else if truthyO content then (s1.1 ++ coerceO content, s1.2)
  else s1

/-- Rewrite the values of every field named `key`, leaving the rest alone. -/
def mapAtKey (key : String) (f : Json → Json) (kvs : List (String × Json)) :
    List (String × Json) :=
  kvs.map fun p => if p.1 = key then (p.1, f p.2) else p

/-- Apply `f` to the `delta` property of a choice object (no-op off objects,
matching sloppy-mode JS). -/
def modifyChoice0 (c0 : Json) (f : Json → Json) : Json :=
  match c0 with
  | .obj fields => .obj (mapAtKey "delta" f fields)
  | j => j

/-- Apply `f` to the delta of element `0` of the `choices` value. -/
def modifyIdx0 (v : Json) (f : Json → Json) : Json :=
  match v with
  | .arr [] => .arr []
  | .arr (x :: xs) => .arr (modifyChoice0 x f :: xs)
  | .obj fields => .obj (mapAtKey "0" (fun c0 => modifyChoice0 c0 f) fields)
  | j => j

/-- The in-place update `data.choices[0].delta := f (...)` (src/server.js:187-191). -/
def modifyDelta (data : Json) (f : Json → Json) : Json :=
  match data with
  | .obj fields => .obj (mapAtKey "choices" (fun v => modifyIdx0 v f) fields)
  | j => j

/-- Lines 178-192: rewrite one successfully parsed frame.  Only choice 0's
delta is consulted and rewritten; `reasoning_content` is deleted from it. -/
def processParsed (reasoningStarted : Bool) (data : Json) : Json × Bool :=
  if truthyO (getDelta data) then
    let delta := (getDelta data).getD .null
    let reasoning := delta.getField "reasoning_content"
    let content := delta.getField "content"
    let step : Json × Bool :=
      if SHOW_REASONING then
        let cb := combineContent reasoningStarted reasoning content
        (if !(cb.1 = "") then
            modifyDelta data (fun d => d.setField "content" (.str cb.1))
          else data,
          cb.2)
      else
        let v : Json := match content with
          | some cj => if cj.truthy then cj else .str ""
          | none => .str ""
        (modifyDelta data (fun d => d.setField "content" v), reasoningStarted)
    (modifyDelta step.1 (fun d => d.delField "reasoning_content"), step.2)
  else (data, reasoningStarted)

/-- The synthetic closing-delimiter frame (src/server.js:170 and 201). -/
def closeFrameJson : Json :=
  Json.obj [("choices",
    Json.arr [Json.obj [("index", Json.num "0"),
      ("delta", Json.obj [("content", Json.str "</think>\n\n")])]])]

def closeFrameWrite : String := "data: " ++ closeFrameJson.stringify ++ "\n\n"

def doneWrite : String := "data: [DONE]\n\n"

/-- The body of `lines.forEach` (src/server.js:166-195).  Returns the updated
reasoning flag and the list of `res.write` arguments.  A parse result of JSON
`null` reproduces the `TypeError` thrown by `null.choices`, which lands in the
same `catch` as a parse failure. -/
def processLine (reasoningStarted : Bool) (line : List Char) : Bool × List String :=
  if !(startsWithL dataMarker line) then (reasoningStarted, [])
  else if hasSubL doneMarker line then
    if SHOW_REASONING && reasoningStarted then (false, [closeFrameWrite, doneWrite])
    else (reasoningStarted, [doneWrite])
  else
    match Json.parseL (line.drop 6) with
    | some Json.null => (reasoningStarted, [String.mk line ++ "\n"])
    | some data =>
      let r := processParsed reasoningStarted data
      (r.2, ["data: " ++ r.1.stringify ++ "\n\n"])
    | none => (reasoningStarted, [String.mk line ++ "\n"])

/-- Fold `processLine` over the complete segments of one chunk. -/
def processLines : Bool → List (List Char) → Bool × List String
  | b, [] => (b, [])
  | b, l :: ls =>
    let r1 := processLine b l
    let r2 := processLines r1.1 ls
    (r2.1, r1.2 ++ r2.2)

/-- Per-request transcoder state: residual buffer and reasoning flag. -/
structure TState where
  buffer : List Char
  started : Bool

def initState : TState := ⟨[], false⟩

/-- One `response.data.on('data')` callback (src/server.js:154-196): append
the chunk, split on newline, pop the final segment back into the buffer,
process the complete segments. -/
def onData (st : TState) (chunk : List Char) : TState × List String :=
  let parts := splitNl (st.buffer ++ chunk)
  let r := processLines st.started parts.dropLast
  (⟨parts.getLastD [], r.1⟩, r.2)

/-- The `response.data.on('end')` close path (src/server.js:198-204).  Note
that the residual buffer is discarded, not processed. -/
def onEnd (st : TState) : List String :=
  if SHOW_REASONING && st.started then [closeFrameWrite] else []

/-- Feed a list of transport chunks through successive `onData` callbacks. -/
def runChunks (st : TState) : List (List Char) → TState × List String
  | [] => (st, [])
  | ch :: rest =>
    let r1 := onData st ch
    let r2 := runChunks r1.1 rest
    (r2.1, r1.2 ++ r2.2)

/-- The full streaming transcode of a chunked upstream byte stream: all
`res.write` arguments, including the end-of-stream close path. -/
def transcodeStream (chunks : List (List Char)) : List String :=
  let r := runChunks initState chunks
  r.2 ++ onEnd r.1

/-- The sequence of logical frames (complete segments) the reassembler hands
to per-frame processing, for a given chunking. -/
def framesSeq (buffer : List Char) : List (List Char) → List (List Char)
  | [] => []
  | ch :: rest =>
    (splitNl (buffer ++ ch)).dropLast ++
      framesSeq ((splitNl (buffer ++ ch)).getLastD []) rest

theorem processLines_append (b : Bool) (xs ys : List (List Char)) :
    processLines b (xs ++ ys) =
      ((processLines (processLines b xs).1 ys).1,
        (processLines b xs).2 ++ (processLines (processLines b xs).1 ys).2) := by
  induction xs generalizing b with
  | nil => simp [processLines]
  | cons l ls ih =>
    simp only [List.cons_append, processLines, List.append_eq]
    rw [ih]
    simp [List.append_assoc]

/-- Two successive data callbacks behave like one callback on the
concatenated chunk. -/
theorem onData_comp (st : TState) (a b : List Char) :
    onData st (a ++ b) =
      ((onData (onData st a).1 b).1,
        (onData st a).2 ++ (onData (onData st a).1 b).2) := by
  have hBne := splitNl_ne_nil ((splitNl (st.buffer ++ a)).getLastD [] ++ b)
  simp only [onData]
  rw [show st.buffer ++ (a ++ b) = (st.buffer ++ a) ++ b from (List.append_assoc _ _ _).symm,
    splitNl_append (st.buffer ++ a) b,
    getLastD_append_ne _ _ _ hBne, dropLast_append_ne _ _ hBne,
    processLines_append]

theorem runChunks_cons_flatten (rest : List (List Char)) :
    ∀ (st : TState) (ch : List Char),
      runChunks st (ch :: rest) =
        ((onData st (ch ++ rest.flatten)).1, (onData st (ch ++ rest.flatten)).2) := by
  induction rest with
  | nil => intro st ch; simp [runChunks]
  | cons b t ih =>
    intro st ch
    have h1 : runChunks st (ch :: b :: t) =
        ((runChunks (onData st ch).1 (b :: t)).1,
          (onData st ch).2 ++ (runChunks (onData st ch).1 (b :: t)).2) := rfl
    rw [h1, ih]
    rw [show ch ++ (b :: t).flatten = ch ++ (b ++ t.flatten) from by simp]
    rw [onData_comp st ch (b ++ t.flatten)]

theorem framesSeq_cons_flatten (rest : List (List Char)) :
    ∀ (buffer ch : List Char),
      framesSeq buffer (ch :: rest) =
        (splitNl (buffer ++ (ch ++ rest.flatten))).dropLast := by
  induction rest with
  | nil => intro buffer ch; simp [framesSeq]
  | cons b t ih =>
    intro buffer ch
    have hBne := splitNl_ne_nil ((splitNl (buffer ++ ch)).getLastD [] ++ (b ++ t.flatten))
    have h1 : framesSeq buffer (ch :: b :: t) =
        (splitNl (buffer ++ ch)).dropLast ++
          framesSeq ((splitNl (buffer ++ ch)).getLastD []) (b :: t) := rfl
    rw [h1, ih]
    rw [show buffer ++ (ch ++ ((b :: t).flatten)) = (buffer ++ ch) ++ (b ++ t.flatten) from by simp,
      splitNl_append (buffer ++ ch) (b ++ t.flatten),
      dropLast_append_ne _ _ hBne]

/-- C1: Frame reassembly is chunking-invariant.  For every upstream character
stream and every way of splitting it into transport chunks, the reassembler
(append chunk to residual buffer, split on the newline boundary, process the
complete segments, retain the final incomplete segment) hands the same
sequence of logical frames to per-frame processing, and the transcoder emits
the same output, as when the whole stream arrives in a single chunk. -/
theorem frame_reassembly_chunking_invariant (chunks : List (List Char)) :
    framesSeq [] chunks = framesSeq [] [chunks.flatten] ∧
      transcodeStream chunks = transcodeStream [chunks.flatten] := by
  cases chunks with
  | nil =>
    constructor
    · simp [framesSeq, splitNl]
    · rfl
  | cons ch rest =>
    constructor
    · rw [show ((ch :: rest).flatten) = ch ++ rest.flatten from by simp]
      rw [framesSeq_cons_flatten rest [] ch, framesSeq_cons_flatten [] [] (ch ++ rest.flatten)]
      simp
    · unfold transcodeStream
      rw [show ((ch :: rest).flatten) = ch ++ rest.flatten from by simp]
      rw [runChunks_cons_flatten rest initState ch,
        runChunks_cons_flatten [] initState (ch ++ rest.flatten)]
      simp

/-! ## Token-level view of the delimiter logic (for C2)

`combineContent` builds the merged content by concatenating delimiter
constants and fragment text.  `combineToks` is the same computation with the
concatenation deferred: each emitted piece is kept as a token.
`combineToks_render` proves the two agree, so counting delimiter tokens is
counting the delimiters the transcoder emits. -/

inductive Tok where
  | openD
  | closeD
  | text (s : String)
deriving DecidableEq

def renderToks : List Tok → String
  | [] => ""
  | Tok.openD :: rest => "<think>\n" ++ renderToks rest
  | Tok.closeD :: rest => "</think>\n\n" ++ renderToks rest
  | Tok.text s :: rest => s ++ renderToks rest

/-- Token-level version of `combineContent` (src/server.js:182-186). -/
def combineToks (reasoningStarted : Bool) (reasoning content : Option Json) :
    List Tok × Bool :=
  let s1 : List Tok × Bool :=
    if truthyO reasoning && !reasoningStarted then
      ([Tok.openD, Tok.text (coerceO reasoning)], true)
    else if truthyO reasoning then ([Tok.text (coerceO reasoning)], reasoningStarted)
    else ([], reasoningStarted)
  if truthyO content && s1.2 then
    (s1.1 ++ [Tok.closeD, Tok.text (coerceO content)], false)
  else if truthyO content then (s1.1 ++ [Tok.text (coerceO content)], s1.2)
  else s1

theorem renderToks_append (a b : List Tok) :
    renderToks (a ++ b) = renderToks a ++ renderToks b := by
  induction a with
  | nil => simp [renderToks]
  | cons t ts ih => cases t <;> simp [renderToks, ih, String.append_assoc]

/-- The token-level combine renders to exactly the string the transcoder
builds, with the same state update. -/
theorem combineToks_render (b : Bool) (r c : Option Json) :
    renderToks (combineToks b r c).1 = (combineContent b r c).1 ∧
      (combineToks b r c).2 = (combineContent b r c).2 := by
  cases hr : truthyO r <;> cases hc : truthyO c <;> cases b <;>
    simp [combineToks, combineContent, hr, hc, renderToks_append, renderToks,
      String.append_assoc]

/-- One upstream event as the stream state machine sees it: a parsed delta
frame carrying the two optional fragments of choice 0, or a termination
frame. -/
inductive StreamEv where
  | delta (reasoning content : Option Json)
  | done

/-- Token-level effect of one event (src/server.js:168-192). -/
def evToks (started : Bool) : StreamEv → List Tok × Bool
  | .delta r c => combineToks started r c
  | .done => if SHOW_REASONING && started then ([Tok.closeD], false) else ([], started)

/-- Token-level effect of an event sequence. -/
def streamToks : Bool → List StreamEv → List Tok × Bool
  | b, [] => ([], b)
  | b, e :: es =>
    let r1 := evToks b e
    let r2 := streamToks r1.2 es
    (r1.1 ++ r2.1, r2.2)

/-- All content tokens of a finished stream, including the end-of-stream
close path (src/server.js:198-204). -/
def emittedToks (evs : List StreamEv) : List Tok :=
  (streamToks false evs).1 ++
    (if SHOW_REASONING && (streamToks false evs).2 then [Tok.closeD] else [])

def isDelim : Tok → Bool
  | Tok.openD => true
  | Tok.closeD => true
  | Tok.text _ => false

/-- The delimiter subsequence of a token stream. -/
def delims (ts : List Tok) : List Tok := ts.filter isDelim

/-- A fragment of the flattened stream: a (truthy) reasoning fragment, a
(truthy) answer fragment, or the run-breaking termination frame. -/
inductive Frag where
  | reasonF
  | answerF
  | brkF
deriving DecidableEq

def evFrags : StreamEv → List Frag
  | .delta r c =>
    (if truthyO r then [Frag.reasonF] else []) ++
      (if truthyO c then [Frag.answerF] else [])
  | .done => [Frag.brkF]

def fragsOf (evs : List StreamEv) : List Frag := (evs.map evFrags).flatten

/-- The number of maximal contiguous runs of reasoning fragments, starting
from a given already-inside-a-run state.  Purely combinatorial: independent
of the transcoder. -/
def countRunsFrom : Bool → List Frag → Nat
  | _, [] => 0
  | inR, Frag.reasonF :: fs => (if inR then 0 else 1) + countRunsFrom true fs
  | _, Frag.answerF :: fs => countRunsFrom false fs
  | _, Frag.brkF :: fs => countRunsFrom false fs

/-- Whether the position after a fragment sequence is inside a reasoning run. -/
def runState : Bool → List Frag → Bool
  | b, [] => b
  | _, Frag.reasonF :: fs => runState true fs
  | _, Frag.answerF :: fs => runState false fs
  | _, Frag.brkF :: fs => runState false fs

theorem countRunsFrom_append (xs ys : List Frag) :
    ∀ b, countRunsFrom b (xs ++ ys) =
      countRunsFrom b xs + countRunsFrom (runState b xs) ys := by
  induction xs with
  | nil => intro b; simp [countRunsFrom, runState]
  | cons f fs ih =>
    intro b
    cases f <;> simp [countRunsFrom, runState, ih, Nat.add_assoc]

/-- The transcoder's reasoning flag after one event equals the combinatorial
run state after that event's fragments. -/
theorem evToks_state (b : Bool) (e : StreamEv) :
    (evToks b e).2 = runState b (evFrags e) := by
  cases e with
  | done => cases b <;> simp [evToks, evFrags, runState, SHOW_REASONING]
  | delta r c =>
    cases hr : truthyO r <;> cases hc : truthyO c <;> cases b <;>
      simp [evToks, evFrags, runState, combineToks, hr, hc]

/-- Per-event delimiter accounting: the delimiters one event emits, plus a
pending close for a still-open run, equal a pending close for the inherited
state plus one balanced open/close pair per new run the event starts. -/
theorem evToks_delims_step (b : Bool) (e : StreamEv) :
    delims (evToks b e).1 ++ (if (evToks b e).2 then [Tok.closeD] else []) =
      (if b then [Tok.closeD] else []) ++
        (List.replicate (countRunsFrom b (evFrags e)) [Tok.openD, Tok.closeD]).flatten := by
  cases e with
  | done =>
    cases b <;>
      simp [evToks, evFrags, countRunsFrom, delims, SHOW_REASONING, isDelim]
  | delta r c =>
    cases hr : truthyO r <;> cases hc : truthyO c <;> cases b <;>
      simp [evToks, evFrags, countRunsFrom, delims, combineToks, hr, hc, isDelim]

theorem flatten_replicate_add (m n : Nat) (x : List Tok) :
    (List.replicate (m + n) x).flatten =
      (List.replicate m x).flatten ++ (List.replicate n x).flatten := by
  rw [List.replicate_add, List.flatten_append]

/-- Invariant form of the delimiter-balance property. -/
theorem streamToks_delims (evs : List StreamEv) :
    ∀ b, delims (streamToks b evs).1 ++
        (if (streamToks b evs).2 then [Tok.closeD] else []) =
      (if b then [Tok.closeD] else []) ++
        (List.replicate (countRunsFrom b (fragsOf evs)) [Tok.openD, Tok.closeD]).flatten := by
  induction evs with
  | nil => intro b; simp [streamToks, fragsOf, countRunsFrom, delims]
  | cons e es ih =>
    intro b
    have h1 : streamToks b (e :: es) =
        ((evToks b e).1 ++ (streamToks (evToks b e).2 es).1,
          (streamToks (evToks b e).2 es).2) := rfl
    have h2 : fragsOf (e :: es) = evFrags e ++ fragsOf es := by
      simp [fragsOf]
    rw [h1, h2, countRunsFrom_append]
    simp only [delims, List.filter_append]
    rw [List.append_assoc]
    have h3 := ih (evToks b e).2
    simp only [delims] at h3
    rw [h3, flatten_replicate_add, ← evToks_state b e]
    have h4 := evToks_delims_step b e
    simp only [delims] at h4
    rw [← List.append_assoc, h4, List.append_assoc]

/-- C2: Reasoning delimiter balance.  Over any sequence of parsed delta
frames and termination frames, the delimiter subsequence of everything the
transcoder emits (including the end-of-stream close path) is exactly one
opening and one matching closing delimiter per maximal contiguous run of
reasoning fragments, in balanced order — so every opened delimiter is closed
by the first subsequent answer fragment, by a termination frame, or at
end-of-stream. -/
theorem reasoning_delimiter_balance (evs : List StreamEv) :
    delims (emittedToks evs) =
      (List.replicate (countRunsFrom false (fragsOf evs)) [Tok.openD, Tok.closeD]).flatten := by
  unfold emittedToks
  simp only [delims, List.filter_append]
  have h := streamToks_delims evs false
  simp only [delims, if_neg (Bool.false_ne_true), List.nil_append, SHOW_REASONING,
    Bool.true_and] at h ⊢
  rw [← h]
  cases hs : (streamToks false evs).2 <;> simp [isDelim]

/-! ## Field-level lemmas about the frame rewrite (for C3, C4) -/

theorem jlookup_cons (k2 : String) (v : Json) (rest : List (String × Json))
    (k : String) :
    jlookup ((k2, v) :: rest) k = if k2 = k then some v else jlookup rest k := rfl

theorem jlookup_mapAtKey (key : String) (f : Json → Json)
    (kvs : List (String × Json)) (k : String) :
    jlookup (mapAtKey key f kvs) k =
      if k = key then (jlookup kvs k).map f else jlookup kvs k := by
  induction kvs with
  | nil => simp [mapAtKey, jlookup]
  | cons p rest ih =>
    obtain ⟨k2, v⟩ := p
    have hhead : mapAtKey key f ((k2, v) :: rest) =
        (if k2 = key then (k2, f v) else (k2, v)) :: mapAtKey key f rest := rfl
    rw [hhead]
    by_cases h2 : k2 = key
    · rw [if_pos h2]
      by_cases hk : k2 = k
      · have hkey : k = key := by rw [← hk, h2]
        rw [jlookup_cons, if_pos hk, if_pos hkey, jlookup_cons, if_pos hk]
        rfl
      · have hkey : ¬ k = key := fun hc => hk (by rw [h2, ← hc])
        rw [jlookup_cons, if_neg hk, ih, if_neg hkey, if_neg hkey,
          jlookup_cons, if_neg hk]
    · rw [if_neg h2]
      by_cases hk : k2 = k
      · have hkey : ¬ k = key := fun hc => h2 (by rw [hk, hc])
        rw [if_neg hkey, jlookup_cons, if_pos hk, jlookup_cons, if_pos hk]
      · rw [jlookup_cons, if_neg hk, ih, jlookup_cons, if_neg hk]

theorem jlookup_setKey_self (kvs : List (String × Json)) (k : String) (v : Json) :
    jlookup (setKey kvs k v) k = some v := by
  induction kvs with
  | nil => simp [setKey, jlookup]
  | cons p rest ih =>
    obtain ⟨k2, v2⟩ := p
    by_cases h2 : k2 = k <;> simp [setKey, jlookup, h2, ih]

theorem jlookup_setKey_ne (kvs : List (String × Json)) (k k2 : String) (v : Json)
    (h : ¬ k2 = k) :
    jlookup (setKey kvs k v) k2 = jlookup kvs k2 := by
  induction kvs with
  | nil =>
    have h2 : ¬ k = k2 := fun hc => h hc.symm
    simp [setKey, jlookup, h2]
  | cons p rest ih =>
    obtain ⟨k3, v3⟩ := p
    by_cases h3 : k3 = k <;> by_cases h4 : k3 = k2 <;>
      simp_all [setKey, jlookup]

theorem jlookup_delKey_self (kvs : List (String × Json)) (k : String) :
    jlookup (delKey kvs k) k = none := by
  induction kvs with
  | nil => simp [delKey, jlookup]
  | cons p rest ih =>
    obtain ⟨k2, v⟩ := p
    by_cases h2 : k2 = k <;> simp_all [delKey, jlookup]

theorem jlookup_delKey_ne (kvs : List (String × Json)) (k k2 : String)
    (h : ¬ k2 = k) :
    jlookup (delKey kvs k) k2 = jlookup kvs k2 := by
  induction kvs with
  | nil => simp [delKey, jlookup]
  | cons p rest ih =>
    obtain ⟨k3, v⟩ := p
    by_cases h3 : k3 = k <;> by_cases h4 : k3 = k2 <;>
      simp_all [delKey, jlookup]

theorem delField_getField_self (d : Json) (k : String) :
    (d.delField k).getField k = none := by
  cases d <;> simp [Json.delField, Json.getField, jlookup_delKey_self]

theorem delField_getField_ne (d : Json) (k k2 : String) (h : ¬ k2 = k) :
    (d.delField k).getField k2 = d.getField k2 := by
  cases d <;> simp [Json.delField, Json.getField, jlookup_delKey_ne _ _ _ h]

theorem setField_getField_ne (d : Json) (k k2 : String) (v : Json) (h : ¬ k2 = k) :
    (d.setField k v).getField k2 = d.getField k2 := by
  cases d <;> simp [Json.setField, Json.getField, jlookup_setKey_ne _ _ _ _ h]

theorem modifyChoice0_getField_ne (c : Json) (f : Json → Json) (k : String)
    (hk : ¬ k = "delta") :
    (modifyChoice0 c f).getField k = c.getField k := by
  cases c <;> simp [modifyChoice0, Json.getField, jlookup_mapAtKey, hk]

theorem modifyChoice0_delta (c : Json) (f : Json → Json) :
    (modifyChoice0 c f).getField "delta" = (c.getField "delta").map f := by
  cases c <;> simp [modifyChoice0, Json.getField, jlookup_mapAtKey]

/-- A value with a field is an object. -/
theorem getField_obj_shape (data : Json) (k : String) (v : Json)
    (h : data.getField k = some v) : ∃ kvs, data = Json.obj kvs := by
  cases data with
  | obj kvs => exact ⟨kvs, rfl⟩
  | null => simp [Json.getField] at h
  | bool b => simp [Json.getField] at h
  | num raw => simp [Json.getField] at h
  | str s => simp [Json.getField] at h
  | arr items => simp [Json.getField] at h

/-- `modifyDelta` on a frame whose `choices` is a non-empty array: choice 0's
delta is rewritten, everything else is untouched. -/
theorem modifyDelta_props (data c0 : Json)
    (rest : List Json) (f : Json → Json)
    (hch : data.getField "choices" = some (Json.arr (c0 :: rest))) :
    (modifyDelta data f).getField "choices" =
        some (Json.arr (modifyChoice0 c0 f :: rest)) ∧
      ∀ k, ¬ k = "choices" →
        (modifyDelta data f).getField k = data.getField k := by
  obtain ⟨kvs, rfl⟩ := getField_obj_shape data "choices" _ hch
  have hchJ : jlookup kvs "choices" = some (Json.arr (c0 :: rest)) := hch
  constructor
  · simp [modifyDelta, Json.getField, jlookup_mapAtKey, hchJ, modifyIdx0]
  · intro k hk
    simp [modifyDelta, Json.getField, jlookup_mapAtKey, hk]

/-- `choices[i]` of a frame (only meaningful when `choices` is an array). -/
def choiceAt (j : Json) (i : Nat) : Option Json :=
  match j.getField "choices" with
  | some (Json.arr items) => items[i]?
  | _ => none

/-- Field `k` of the delta of `choices[i]`. -/
def choiceDeltaField (j : Json) (i : Nat) (k : String) : Option Json :=
  match choiceAt j i with
  | some c =>
    match c.getField "delta" with
    | some d => d.getField k
    | none => none
  | none => none

/-! ## C3: fail-open on malformed frames -/

/-- C3 counterexample: the stream consisting of the single malformed frame
`data: oops` followed by the boundary sequence is re-emitted with a single
newline, not with the boundary sequence it arrived with — so the frame is not
forwarded byte-for-byte with the same boundary. -/
theorem malformed_frame_boundary_counterexample :
    transcodeStream ["data: oops\n\n".data] = ["data: oops\n"] ∧
      ¬ ("data: oops\n" : String) = "data: oops\n\n" :=
  ⟨rfl, by decide⟩

/-- C3 (amended): a line that carries the frame marker, does not contain the
termination sentinel, and whose body fails to parse as JSON is forwarded with
its bytes unmodified but terminated by a single newline (one newline of the
received boundary sequence is dropped, because the blank separator line is
discarded), and the reasoning-open flag is unchanged (per-line processing
never touches the residual buffer). -/
theorem malformed_frame_fail_open (st : Bool) (line : List Char)
    (hmark : startsWithL dataMarker line = true)
    (hdone : hasSubL doneMarker line = false)
    (hparse : Json.parseL (line.drop 6) = none) :
    processLine st line = (st, [String.mk line ++ "\n"]) := by
  simp [processLine, hmark, hdone, hparse]

theorem malformed_frame_fail_open_witness :
    startsWithL dataMarker "data: \x7bbad".data = true ∧
      hasSubL doneMarker "data: \x7bbad".data = false ∧
      Json.parseL ("data: \x7bbad".data.drop 6) = none ∧
      processLine true "data: \x7bbad".data =
        (true, [String.mk "data: \x7bbad".data ++ "\n"]) :=
  ⟨rfl, rfl, rfl, malformed_frame_fail_open true "data: \x7bbad".data rfl rfl rfl⟩

/-! ## C4: stripping of the reasoning field -/

/-- A delta frame with two choices, the second of which carries a reasoning
fragment (src/server.js:178-191 only ever touches choice 0). -/
def multiChoiceFrame : Json :=
  Json.obj [("choices", Json.arr [
    Json.obj [("delta", Json.obj [("content", Json.str "a")])],
    Json.obj [("delta", Json.obj [("reasoning_content", Json.str "r")])]])]

/-- C4 counterexample: after the rewrite, the second choice of the re-emitted
frame still carries its `reasoning_content` field — the reasoning-specific
field is not absent for every choice the frame carries. -/
theorem strip_reasoning_multi_choice_counterexample :
    choiceDeltaField (processParsed false multiChoiceFrame).1 1 "reasoning_content" =
        some (Json.str "r") ∧
      ¬ (some (Json.str "r") = (none : Option Json)) :=
  ⟨rfl, by simp⟩

/-- C4 (amended): for every successfully parsed frame whose `choices` is a
non-empty array and whose first choice carries a truthy delta, the re-emitted
frame has no `reasoning_content` in choice 0's delta; choice 0's other delta
fields are unchanged except `content`; the frame's fields other than
`choices` are unchanged; and the choices other than choice 0 are re-emitted
unchanged, as are choice 0's fields other than `delta`. -/
theorem strip_reasoning_choice0 (started : Bool) (data c0 d : Json)
    (rest : List Json)
    (hch : data.getField "choices" = some (Json.arr (c0 :: rest)))
    (hd : c0.getField "delta" = some d)
    (hdt : d.truthy = true) :
    choiceDeltaField (processParsed started data).1 0 "reasoning_content" = none ∧
      (∀ k, ¬ k = "content" → ¬ k = "reasoning_content" →
        choiceDeltaField (processParsed started data).1 0 k =
          choiceDeltaField data 0 k) ∧
      (∀ k, ¬ k = "choices" →
        (processParsed started data).1.getField k = data.getField k) ∧
      (∃ c0x,
        (processParsed started data).1.getField "choices" =
            some (Json.arr (c0x :: rest)) ∧
          ∀ k, ¬ k = "delta" → c0x.getField k = c0.getField k) := by
  obtain ⟨kvs, rfl⟩ := getField_obj_shape data "choices" _ hch
  have hgd : getDelta (Json.obj kvs) = some d := by
    unfold getDelta
    rw [show (Json.obj kvs).getField "choices" = some (Json.arr (c0 :: rest)) from hch]
    simp [Json.idx0, hd]
  have hguard : truthyO (getDelta (Json.obj kvs)) = true := by
    rw [hgd]; simpa [truthyO]
  have htr : truthyO (some d) = true := by simpa [truthyO] using hdt
  have hdata0 : choiceDeltaField (Json.obj kvs) 0 = fun k => d.getField k := by
    funext k
    unfold choiceDeltaField choiceAt
    rw [show (Json.obj kvs).getField "choices" = some (Json.arr (c0 :: rest)) from hch]
    simp [hd]
  by_cases hcb :
      (combineContent started (d.getField "reasoning_content") (d.getField "content")).1 = ""
  · -- no content rewrite: only the delete is applied
    have hpp : processParsed started (Json.obj kvs) =
        (modifyDelta (Json.obj kvs) (fun dd => dd.delField "reasoning_content"),
          (combineContent started (d.getField "reasoning_content")
            (d.getField "content")).2) := by
      simp [processParsed, hguard, hgd, htr, SHOW_REASONING, hcb]
    have hprops := modifyDelta_props (Json.obj kvs) c0 rest
      (fun dd => dd.delField "reasoning_content") hch
    rw [hpp]
    refine ⟨?_, ?_, ?_, ?_⟩
    · unfold choiceDeltaField choiceAt
      rw [show (modifyDelta (Json.obj kvs) (fun dd => dd.delField "reasoning_content")).getField
          "choices" = some (Json.arr (modifyChoice0 c0
            (fun dd => dd.delField "reasoning_content") :: rest)) from hprops.1]
      simp [modifyChoice0_delta, hd, delField_getField_self]
    · intro k hk1 hk2
      rw [show choiceDeltaField (Json.obj kvs) 0 k = d.getField k from congrFun hdata0 k]
      unfold choiceDeltaField choiceAt
      rw [show (modifyDelta (Json.obj kvs) (fun dd => dd.delField "reasoning_content")).getField
          "choices" = some (Json.arr (modifyChoice0 c0
            (fun dd => dd.delField "reasoning_content") :: rest)) from hprops.1]
      simp [modifyChoice0_delta, hd, delField_getField_ne d _ _ hk2]
    · intro k hk
      exact hprops.2 k hk
    · exact ⟨_, hprops.1, fun k hk => modifyChoice0_getField_ne c0 _ k hk⟩
  · -- content rewrite, then the delete
    have hpp : processParsed started (Json.obj kvs) =
        (modifyDelta
          (modifyDelta (Json.obj kvs)
            (fun dd => dd.setField "content"
              (Json.str (combineContent started (d.getField "reasoning_content")
                (d.getField "content")).1)))
          (fun dd => dd.delField "reasoning_content"),
          (combineContent started (d.getField "reasoning_content")
            (d.getField "content")).2) := by
      simp [processParsed, hguard, hgd, htr, SHOW_REASONING, hcb]
    have hset := modifyDelta_props (Json.obj kvs) c0 rest
      (fun dd => dd.setField "content"
        (Json.str (combineContent started (d.getField "reasoning_content")
          (d.getField "content")).1)) hch
    have hdel := modifyDelta_props
      (modifyDelta (Json.obj kvs)
        (fun dd => dd.setField "content"
          (Json.str (combineContent started (d.getField "reasoning_content")
            (d.getField "content")).1)))
      (modifyChoice0 c0
        (fun dd => dd.setField "content"
          (Json.str (combineContent started (d.getField "reasoning_content")
            (d.getField "content")).1)))
      rest (fun dd => dd.delField "reasoning_content") hset.1
    rw [hpp]
    refine ⟨?_, ?_, ?_, ?_⟩
    · unfold choiceDeltaField choiceAt
      rw [hdel.1]
      simp [modifyChoice0_delta, hd, delField_getField_self]
    · intro k hk1 hk2
      rw [show choiceDeltaField (Json.obj kvs) 0 k = d.getField k from congrFun hdata0 k]
      unfold choiceDeltaField choiceAt
      rw [hdel.1]
      simp [modifyChoice0_delta, hd, delField_getField_ne _ _ _ hk2,
        setField_getField_ne _ _ _ _ hk1]
    · intro k hk
      rw [hdel.2 k hk, hset.2 k hk]
    · refine ⟨_, hdel.1, ?_⟩
      intro k hk
      rw [modifyChoice0_getField_ne _ _ k hk, modifyChoice0_getField_ne _ _ k hk]

def witnessDeltaObj : Json := Json.obj [("reasoning_content", Json.str "r")]

def witnessChoice : Json := Json.obj [("delta", witnessDeltaObj)]

def witnessFrame : Json := Json.obj [("choices", Json.arr [witnessChoice])]

theorem strip_reasoning_choice0_witness :
    choiceDeltaField (processParsed false witnessFrame).1 0 "reasoning_content" = none :=
  (strip_reasoning_choice0 false witnessFrame witnessChoice witnessDeltaObj []
    rfl rfl rfl).1

/-! ## C5: the streaming reasoning/answer scenario -/

/-- Content field of one emitted frame (empty for the termination frame). -/
def emittedContentOf (w : String) : String :=
  match Json.parseL (w.data.drop 6) with
  | some j =>
    match getDelta j with
    | some d =>
      match d.getField "content" with
      | some (Json.str s) => s
      | _ => ""
    | none => ""
  | none => ""

/-- The three upstream frames of the spec's streaming scenario. -/
def scenarioStream : String :=
  "data: \x7b\"choices\":[\x7b\"delta\":\x7b\"reasoning_content\":\"hi\"\x7d\x7d]\x7d\n\n" ++
    "data: \x7b\"choices\":[\x7b\"delta\":\x7b\"content\":\"world\"\x7d\x7d]\x7d\n\n" ++
    "data: [DONE]\n\n"

/-- C5: feeding the reasoning-then-answer-then-done scenario through the
stream transcoder yields frames whose concatenated content fields equal
the think-delimited text, and the emitted stream ends with the
termination frame. -/
theorem stream_scenario_think_world :
    String.join ((transcodeStream [scenarioStream.data]).map emittedContentOf) =
        "<think>\nhi</think>\n\nworld" ∧
      (transcodeStream [scenarioStream.data]).getLast? = some doneWrite :=
  ⟨by decide, by decide⟩

/-! ## Non-stream response transcoder (src/server.js:212-231) -/

structure NimMessage where
  role : String
  content : Option String
  reasoning_content : Option String
deriving DecidableEq

structure NimChoice where
  index : Nat
  message : Option NimMessage
  finish_reason : Option String
deriving DecidableEq

structure NimUsage where
  prompt_tokens : Nat
  completion_tokens : Nat
  total_tokens : Nat
deriving DecidableEq

structure NimBody where
  choices : List NimChoice
  usage : Option NimUsage
deriving DecidableEq

structure OutMessage where
  role : String
  content : String
deriving DecidableEq

structure OutChoice where
  index : Nat
  message : OutMessage
  finish_reason : Option String
deriving DecidableEq

structure OutBody where
  model : String
  choices : List OutChoice
  usage : NimUsage
deriving DecidableEq

/-- JS truthiness of an optional string (absent and empty are falsy). -/
def truthyS : Option String → Bool
  | none => false
  | some s => !(s = "")

/-- One choice of the non-stream translation (src/server.js:221-227).
`none` models the `TypeError` thrown by `choice.message.role` when the
upstream choice has no message (the handler then lands in the catch-all
error path). -/
def translateChoice (c : NimChoice) : Option OutChoice :=
  let base : String :=
    match c.message with
    | some m => m.content.getD ""
    | none => ""
  let fullContent : String :=
    if SHOW_REASONING &&
        truthyS (match c.message with
          | some m => m.reasoning_content
          | none => none) then
      "<think>\n" ++
        (match c.message with
          | some m => m.reasoning_content.getD ""
          | none => "") ++ "\n</think>\n\n" ++ base
    else base
  match c.message with
  | some m =>
    some { index := c.index,
           message := { role := m.role, content := fullContent },
           finish_reason := c.finish_reason }
  | none => none

/-- src/server.js:216-230 (`id` and `created`, which are wall-clock
timestamps, are not modelled). -/
def openaiResponse (body : NimBody) (model : String) : Option OutBody :=
  (body.choices.mapM translateChoice).map fun cs =>
    { model := model, choices := cs, usage := body.usage.getD ⟨0, 0, 0⟩ }

def emptyReasoningMessage : NimMessage :=
  { role := "assistant", content := some "c", reasoning_content := some "" }

def emptyReasoningChoice : NimChoice :=
  { index := 0, message := some emptyReasoningMessage, finish_reason := some "stop" }

/-- C6 counterexample: a message carrying the reasoning field with the empty
string (present, but JS-falsy) is not wrapped — the translated content is the
bare answer content, not the delimiter-wrapped form the claim requires for
every carried reasoning field. -/
theorem nonstream_empty_reasoning_counterexample :
    (translateChoice emptyReasoningChoice).map (fun oc => oc.message.content) =
        some "c" ∧
      ¬ ("c" : String) = "<think>\n\n</think>\n\nc" :=
  ⟨by decide, by decide⟩

/-- C6 (amended): each choice whose message carries a nonempty reasoning
field yields content equal to the reasoning wrapped in delimiters prepended
to the answer content, with role, index and finish_reason passed through
unchanged; and a body without a usage field yields all-zero usage counters. -/
theorem nonstream_translation (c : NimChoice) (m : NimMessage) (r : String)
    (hm : c.message = some m) (hr : m.reasoning_content = some r)
    (hne : ¬ r = "") :
    translateChoice c = some
        { index := c.index,
          message := { role := m.role,
                       content := "<think>\n" ++ r ++ "\n</think>\n\n" ++
                         m.content.getD "" },
          finish_reason := c.finish_reason } ∧
      ∀ (body : NimBody) (model : String) (ob : OutBody),
        openaiResponse body model = some ob → body.usage = none →
          ob.usage = ⟨0, 0, 0⟩ := by
  constructor
  · simp [translateChoice, hm, hr, truthyS, hne, SHOW_REASONING]
  · intro body model ob hob hu
    simp [openaiResponse, hu] at hob
    obtain ⟨cs, hcs, rfl⟩ := hob
    rfl

def wNimMessage : NimMessage :=
  { role := "assistant", content := some "c", reasoning_content := some "r" }

def wNimChoice : NimChoice :=
  { index := 0, message := some wNimMessage, finish_reason := some "stop" }

def wOutMessage : OutMessage :=
  { role := "assistant", content := "<think>\nr\n</think>\n\nc" }

theorem nonstream_translation_witness :
    translateChoice wNimChoice =
      some { index := 0, message := wOutMessage, finish_reason := some "stop" } :=
  (nonstream_translation wNimChoice wNimMessage "r" rfl rfl (by decide)).1

/-! ## Model resolver (src/server.js:25-35, 81-105) -/

def MODEL_MAPPING : List (String × String) := [
  ("gpt-3.5-turbo", "nvidia/llama-3.1-nemotron-ultra-253b-v1"),
  ("gpt-4", "qwen/qwen3-coder-480b-a35b-instruct"),
  ("gpt-4-turbo", "moonshotai/kimi-k2-instruct-0905"),
  ("gpt-4o", "deepseek-ai/deepseek-v3.1"),
  ("claude-3-opus", "z-ai/glm4.7"),
  ("claude-3-sonnet", "z-ai/glm5"),
  ("gemini-pro", "qwen/qwen3-next-80b-a3b-thinking")]

def lookupStr : List (String × String) → String → Option String
  | [], _ => none
  | (k, v) :: rest, q => if k = q then some v else lookupStr rest q

/-- JS `s.toLowerCase()` restricted to ASCII (every identifier the resolver
compares against is ASCII). -/
def lowerStr (s : String) : String := String.mk (s.data.map Char.toLower)

/-- JS `s.includes(pat)` on strings. -/
def includesS (s pat : String) : Bool := hasSubL pat.data s.data

/-- The heuristic fallback chain (src/server.js:100-103). -/
def heuristicFallback (model : String) : String :=
  let ml := lowerStr model
  if includesS ml "gpt-4" || includesS ml "claude-opus" || includesS ml "405b" then
    "meta/llama-3.1-405b-instruct"
  else if includesS ml "claude" || includesS ml "gemini" || includesS ml "70b" then
    "meta/llama-3.1-70b-instruct"
  else "meta/llama-3.1-8b-instruct"

/-- A `verifiedModels` entry: a confirmed upstream identifier or the `null`
sentinel recorded for a failed probe. -/
inductive MemoEntry where
  | confirmed (m : String)
  | unconfirmed
deriving DecidableEq

def lookupMemo : List (String × MemoEntry) → String → Option MemoEntry
  | [], _ => none
  | (k, v) :: rest, q => if k = q then some v else lookupMemo rest q

/-- Model resolution without a probe (src/server.js:81-105): the static
table, then the memo (`if (cached)` — a falsy cached value falls through to
the heuristic), then the heuristic fallback.  `none` means the handler would
issue a probe (no memo entry exists). -/
def resolveModel (memo : List (String × MemoEntry)) (model : String) :
    Option String :=
  match lookupStr MODEL_MAPPING model with
  | some m => some m
  | none =>
    match lookupMemo memo model with
    | some (MemoEntry.confirmed m) =>
      if !(m = "") then some m else some (heuristicFallback model)
    | some MemoEntry.unconfirmed => some (heuristicFallback model)
    | none => none

/-- C7 counterexample: `gpt-4-70b` is absent from the alias table, its memo
holds the failed-probe sentinel, and it contains `70b` — yet resolution
returns the large-tier identifier, because the `gpt-4` marker is tested
first. -/
theorem resolver_70b_counterexample :
    lookupStr MODEL_MAPPING "gpt-4-70b" = none ∧
      resolveModel [("gpt-4-70b", MemoEntry.unconfirmed)] "gpt-4-70b" =
        some "meta/llama-3.1-405b-instruct" ∧
      ¬ ("meta/llama-3.1-405b-instruct" : String) = "meta/llama-3.1-70b-instruct" :=
  ⟨rfl, rfl, by decide⟩

/-- C7 (amended): for an identifier absent from the alias table whose memo
holds the failed-probe sentinel: if it contains `70b` (case-insensitively)
and none of the large-tier markers (`gpt-4`, `claude-opus`, `405b`),
resolution returns the medium-tier identifier; and when no tier marker at
all matches, the small-tier identifier. -/
theorem resolver_fallback_tiers (memo : List (String × MemoEntry)) (model : String)
    (hmap : lookupStr MODEL_MAPPING model = none)
    (hmemo : lookupMemo memo model = some MemoEntry.unconfirmed) :
    (includesS (lowerStr model) "70b" = true →
      includesS (lowerStr model) "gpt-4" = false →
      includesS (lowerStr model) "claude-opus" = false →
      includesS (lowerStr model) "405b" = false →
      resolveModel memo model = some "meta/llama-3.1-70b-instruct") ∧
    (includesS (lowerStr model) "gpt-4" = false →
      includesS (lowerStr model) "claude-opus" = false →
      includesS (lowerStr model) "405b" = false →
      includesS (lowerStr model) "claude" = false →
      includesS (lowerStr model) "gemini" = false →
      includesS (lowerStr model) "70b" = false →
      resolveModel memo model = some "meta/llama-3.1-8b-instruct") := by
  constructor
  · intro h70 hg hc h405
    simp [resolveModel, hmap, hmemo, heuristicFallback, h70, hg, hc, h405]
  · intro hg hc h405 hcl hgem h70
    simp [resolveModel, hmap, hmemo, heuristicFallback, hg, hc, h405, hcl,
      hgem, h70]

theorem resolver_fallback_tiers_witness :
    resolveModel [("llama-70b", MemoEntry.unconfirmed)] "llama-70b" =
        some "meta/llama-3.1-70b-instruct" ∧
      resolveModel [("mymodel", MemoEntry.unconfirmed)] "mymodel" =
        some "meta/llama-3.1-8b-instruct" :=
  ⟨(resolver_fallback_tiers [("llama-70b", MemoEntry.unconfirmed)] "llama-70b"
      rfl rfl).1 rfl rfl rfl rfl,
    (resolver_fallback_tiers [("mymodel", MemoEntry.unconfirmed)] "mymodel"
      rfl rfl).2 rfl rfl rfl rfl rfl rfl⟩

/-! ## Request transcoder (src/server.js:108-115) -/

structure ChatMessage where
  role : String
  content : String
deriving DecidableEq

structure ProxyRequest where
  model : String
  messages : List ChatMessage
  temperature : Option ℚ
  max_tokens : Option ℤ
  stream : Option Bool

structure ThinkKwargs where
  thinking : Bool
deriving DecidableEq

structure NimRequest where
  model : String
  messages : List ChatMessage
  temperature : ℚ
  max_tokens : ℤ
  stream : Bool
  chat_template_kwargs : Option ThinkKwargs

/-- JS `x || d` on an optional number: absence and `0` fall back to `d`. -/
def jsOrQ (o : Option ℚ) (d : ℚ) : ℚ :=
  match o with
  | some x => if x = 0 then d else x
  | none => d

def jsOrZ (o : Option ℤ) (d : ℤ) : ℤ :=
  match o with
  | some x => if x = 0 then d else x
  | none => d

def jsOrB (o : Option Bool) (d : Bool) : Bool :=
  match o with
  | some b => if b then b else d
  | none => d

/-- The upstream request construction (src/server.js:108-115). -/
def buildNimRequest (r : ProxyRequest) (nimModel : String) : NimRequest :=
  { model := nimModel,
    messages := r.messages,
    temperature := jsOrQ r.temperature 0.85,
    max_tokens := jsOrZ r.max_tokens 1009024,
    stream := jsOrB r.stream false,
    chat_template_kwargs := if ENABLE_THINKING_MODE then some ⟨true⟩ else none }

def zeroTempRequest : ProxyRequest :=
  { model := "gpt-4", messages := [⟨"user", "hi"⟩], temperature := some 0,
    max_tokens := some 100, stream := none }

/-- C8 counterexample: a caller-supplied temperature of 0 is replaced by the
default 0.85, so the upstream temperature does not equal the supplied one. -/
theorem request_defaults_counterexample :
    zeroTempRequest.temperature = some 0 ∧
      (buildNimRequest zeroTempRequest "m").temperature = 0.85 ∧
      ¬ ((0.85 : ℚ) = 0) :=
  ⟨rfl, by simp [buildNimRequest, jsOrQ, zeroTempRequest], by norm_num⟩

/-- C8 (amended): the conversation is copied verbatim; the upstream
temperature equals the caller's value when supplied and nonzero, and the
default 0.85 otherwise (a supplied 0 is replaced by the default, `||` being
falsy on 0); max-output-tokens likewise with the fixed ceiling 1009024. -/
theorem request_transcoding_defaults (r : ProxyRequest) (nimModel : String) :
    (buildNimRequest r nimModel).messages = r.messages ∧
      (∀ t : ℚ, r.temperature = some t → ¬ t = 0 →
        (buildNimRequest r nimModel).temperature = t) ∧
      (r.temperature = none → (buildNimRequest r nimModel).temperature = 0.85) ∧
      (∀ n : ℤ, r.max_tokens = some n → ¬ n = 0 →
        (buildNimRequest r nimModel).max_tokens = n) ∧
      (r.max_tokens = none → (buildNimRequest r nimModel).max_tokens = 1009024) := by
  refine ⟨rfl, ?_, ?_, ?_, ?_⟩
  · intro t ht hne
    simp [buildNimRequest, jsOrQ, ht, hne]
  · intro ht
    simp [buildNimRequest, jsOrQ, ht]
  · intro n hn hne
    simp [buildNimRequest, jsOrZ, hn, hne]
  · intro hn
    simp [buildNimRequest, jsOrZ, hn]

def wProxyRequest : ProxyRequest :=
  { model := "x", messages := [⟨"user", "hi"⟩], temperature := some 2,
    max_tokens := none, stream := some true }

theorem request_transcoding_defaults_witness :
    (buildNimRequest wProxyRequest "m").messages = wProxyRequest.messages ∧
      (buildNimRequest wProxyRequest "m").temperature = 2 ∧
      (buildNimRequest wProxyRequest "m").max_tokens = 1009024 :=
  ⟨(request_transcoding_defaults wProxyRequest "m").1,
    (request_transcoding_defaults wProxyRequest "m").2.1 2 rfl (by norm_num),
    (request_transcoding_defaults wProxyRequest "m").2.2.2.2 rfl⟩

/-! ## Inbound validation and dispatch (src/server.js:74-105) -/

structure ErrorEnvelope where
  message : String
  etype : String
  code : Nat
deriving DecidableEq

/-- `!messages || !Array.isArray(messages) || messages.length === 0`
(src/server.js:74). -/
def messagesInvalid (messages : Option Json) : Bool :=
  match messages with
  | none => true
  | some j =>
    !j.truthy ||
      !(match j with | Json.arr _ => true | _ => false) ||
      (match j with | Json.arr items => items.length == 0 | _ => false)

/-- What the handler does up to the upstream boundary: an immediate 400
rejection (returned before any upstream traffic, src/server.js:74-78), or the
upstream phase — a probe only when the identifier is unmapped with no memo
entry (src/server.js:86-98), then the main call (src/server.js:130). -/
inductive HandlerPlan where
  | respond400 (env : ErrorEnvelope)
  | upstreamPhase (probeNeeded : Bool) (mainCall : Bool)
deriving DecidableEq

def planRequest (messages : Option Json) (model : String)
    (memo : List (String × MemoEntry)) : HandlerPlan :=
  if messagesInvalid messages then
    HandlerPlan.respond400
      ⟨"'messages' is required and must be a non-empty array",
        "invalid_request_error", 400⟩
  else
    HandlerPlan.upstreamPhase (resolveModel memo model).isNone true

/-- (probe performed, main upstream call performed). -/
def planCalls : HandlerPlan → Bool × Bool
  | HandlerPlan.respond400 _ => (false, false)
  | HandlerPlan.upstreamPhase probe main => (probe, main)

/-- C9: a request whose messages field is missing, not an array, or an empty
array is answered with the 400 JSON error envelope before the upstream
phase — neither a probe nor a main upstream call is performed. -/
theorem invalid_messages_rejected (messages : Option Json) (model : String)
    (memo : List (String × MemoEntry))
    (h : messages = none ∨
      (∃ j, messages = some j ∧
        (match j with | Json.arr _ => false | _ => true) = true) ∨
      messages = some (Json.arr [])) :
    planRequest messages model memo =
        HandlerPlan.respond400
          ⟨"'messages' is required and must be a non-empty array",
            "invalid_request_error", 400⟩ ∧
      planCalls (planRequest messages model memo) = (false, false) := by
  have hinv : messagesInvalid messages = true := by
    rcases h with h | h | h
    · subst h; rfl
    · obtain ⟨j, rfl, hj⟩ := h
      cases j <;> simp_all [messagesInvalid, Json.truthy]
    · subst h; rfl
  constructor
  · simp [planRequest, hinv]
  · simp [planRequest, hinv, planCalls]

theorem invalid_messages_rejected_witness :
    planCalls (planRequest (some (Json.arr [])) "gpt-4" []) = (false, false) :=
  (invalid_messages_rejected (some (Json.arr [])) "gpt-4" []
    (Or.inr (Or.inr rfl))).2

/-! ## Single-response guarantee (src/server.js:145-231, 274-293) -/

/-- One caller-visible response action: a JSON body with a status, or the
close of an already-begun response with no new body. -/
inductive RespEvent where
  | jsonBody (status : Nat)
  | closeOnly
deriving DecidableEq

/-- The catch handler (src/server.js:274-293): a JSON error envelope with the
upstream status (500 when absent) only if headers have not been sent,
otherwise only `res.end()`. -/
def catchHandler (headersSent : Bool) (errStatus : Option Nat) : RespEvent :=
  if !headersSent then RespEvent.jsonBody (errStatus.getD 500)
  else RespEvent.closeOnly

/-- How one handler run ends, abstracting the control flow of
src/server.js:51-295: validation failure (early return), the single
non-stream `res.json`, a stream closed by the `end`/`error` listeners
(which only ever `res.write`/`res.end`), or an exception reaching the catch
handler with the headers-sent flag as it then stands. -/
inductive RunOutcome where
  | invalidRequest
  | nonStreamOk
  | streamRan (transportError : Bool)
  | failed (headersSent : Bool) (errStatus : Option Nat)

/-- The caller-visible responses of one handler run. -/
def handlerResponses : RunOutcome → List RespEvent
  | RunOutcome.invalidRequest => [RespEvent.jsonBody 400]
  | RunOutcome.nonStreamOk => [RespEvent.jsonBody 200]
  | RunOutcome.streamRan _ => [RespEvent.closeOnly]
  | RunOutcome.failed headersSent errStatus => [catchHandler headersSent errStatus]

def isJsonBody : RespEvent → Bool
  | RespEvent.jsonBody _ => true
  | RespEvent.closeOnly => false

/-- C10: every handler run produces exactly one response; a failure before
headers are sent produces exactly one JSON error envelope (the upstream
status, else 500); a failure after streaming headers have been sent emits no
JSON body — the connection is simply closed. -/
theorem single_response_guarantee (o : RunOutcome) :
    (handlerResponses o).length = 1 ∧
      (∀ st, o = RunOutcome.failed false st →
        handlerResponses o = [RespEvent.jsonBody (st.getD 500)]) ∧
      (∀ st, o = RunOutcome.failed true st →
        (handlerResponses o).all (fun e => !(isJsonBody e)) = true ∧
          handlerResponses o = [RespEvent.closeOnly]) := by
  refine ⟨?_, ?_, ?_⟩
  · cases o <;> rfl
  · intro st h
    subst h
    rfl
  · intro st h
    subst h
    exact ⟨rfl, rfl⟩

theorem single_response_guarantee_witness :
    handlerResponses (RunOutcome.failed false (some 502)) =
        [RespEvent.jsonBody 502] ∧
      handlerResponses (RunOutcome.failed true none) = [RespEvent.closeOnly] :=
  ⟨(single_response_guarantee (RunOutcome.failed false (some 502))).2.1
      (some 502) rfl,
    ((single_response_guarantee (RunOutcome.failed true none)).2.2 none rfl).2⟩

end NimProxy
